import Mathlib

/-!
Verification of the image-processing pipeline in
src/lambda/image-processor/lambda_function.py.

The Python module is embedded shallowly:

* Decoded PIL images are modelled by their color mode and pixel dimensions
  (pixel contents never influence control flow or any claim).
* PIL's in-place `Image.thumbnail` is modelled by its dimension computation
  (Pillow's `preserve_aspect_ratio` / `round_aspect` algorithm), carried out
  in exact rational arithmetic in place of IEEE-754 doubles.
* The in-place mutation performed by `Image.thumbnail` is made explicit:
  `resize_image` returns both the resized image and the state of its input
  object after the call (they alias exactly when the source branch does not
  build a fresh white-background copy).
* AWS calls (S3 get/put, SNS publish) are modelled by an `Env` of injected
  collaborators plus an explicit effect `Trace`; failures of each external
  call are injected through `Env`.  Timestamps (`datetime.utcnow`) are
  real-time values and are omitted from the modelled metadata/message.
* Python exceptions are modelled with `Except`: `lambda_handler` re-raises
  every error it catches, so its model returns the error unchanged.
-/

namespace ImagePipeline

/-- Color mode of a decoded PIL image.  The source only ever tests
membership in `('RGBA', 'LA', 'P')`; the remaining modes are represented by
`RGB` and `L`. -/
inductive Mode
  | RGBA
  | LA
  | P
  | RGB
  | L
  deriving DecidableEq, Repr

/-- A decoded PIL image, abstracted to its mode and size.  Pixel data is not
modelled: no branch of the source reads it. -/
structure PILImage where
  mode : Mode
  width : Nat
  height : Nat
  deriving DecidableEq, Repr

/-- Pillow's `round_aspect(number, key)` from `Image.thumbnail`:
`max(min(floor(number), ceil(number), key=key), 1)` — pick floor or ceil of
the exact value, whichever the key prefers (ties go to floor), clamped below
by 1. -/
def roundAspect (number : ℚ) (key : Nat → ℚ) : Nat :=
  max (if key ⌊number⌋.toNat ≤ key ⌈number⌉.toNat then ⌊number⌋.toNat else ⌈number⌉.toNat) 1

/-- Dimension computation of PIL `Image.thumbnail((x, y))` on a `w × h`
image (Pillow's `preserve_aspect_ratio`): a no-op when the image already
fits in the box, otherwise shrink to the box preserving the aspect ratio
`w / h`, rounding the derived coordinate.  Arithmetic is exact over ℚ where
Pillow uses float64. -/
def thumbSize (w h x y : Nat) : Nat × Nat :=
  if w ≤ x ∧ h ≤ y then (w, h)
  else
    let aspect : ℚ := (w : ℚ) / (h : ℚ)
    if aspect ≤ (x : ℚ) / (y : ℚ) then
      (roundAspect ((y : ℚ) * aspect) (fun n => |aspect - (n : ℚ) / (y : ℚ)|), y)
    else
      (x, roundAspect ((x : ℚ) / aspect)
            (fun n => if n = 0 then 0 else |aspect - (x : ℚ) / (n : ℚ)|))

/-- PIL `image.thumbnail(target_size, LANCZOS)`, as the resulting image
value (the caller-visible mutation is threaded explicitly by
`resize_image`).  Mode and pixel aspect are preserved; only the dimensions
change. -/
def PILImage.thumbnail (image : PILImage) (target_size : Nat × Nat) : PILImage :=
  let s := thumbSize image.width image.height target_size.1 target_size.2
  { image with width := s.1, height := s.2 }

/-- `resize_image(image, target_size)` from the source.  Returns
`(resized_image, state of the passed-in image object after the call)`:

* modes `RGBA`/`LA`/`P` are first flattened onto a fresh white `RGB`
  background of the same size, so the original object is left untouched;
* any other mode calls `image.thumbnail` directly, mutating the passed-in
  object in place — the returned image and the input object are the same
  (aliased) object afterwards. -/
def resize_image (image : PILImage) (target_size : Nat × Nat) : PILImage × PILImage :=
  if image.mode = Mode.RGBA ∨ image.mode = Mode.LA ∨ image.mode = Mode.P then
    (PILImage.thumbnail { mode := Mode.RGB, width := image.width, height := image.height }
      target_size, image)
  else
    let r := PILImage.thumbnail image target_size
    (r, r)

/-- The fixed `SIZES` table: variant name ↦ target bounding box, in the
source's (insertion-ordered dict) iteration order. -/
def SIZES : List (String × Nat × Nat) :=
  [("thumbnail", (150, 150)), ("mobile", (480, 480)), ("web", (1024, 1024))]

/-- Raw object bytes, abstracted by what `Image.open` does with them:
either they decode to some image or decoding raises. -/
inductive Bytes
  | image (img : PILImage)
  | garbage
  deriving DecidableEq, Repr

/-- Errors that propagate out of the handler (Python exceptions). -/
inductive PErr
  | fetchError (bucket key : String)
  | decodeError
  | putError (key : String)
  deriving DecidableEq, Repr

/-- One entry of the `results` dict built by `process_image`:
`{'size': ..., 'key': ...}`. -/
structure VariantEntry where
  size : Nat × Nat
  key : String
  deriving DecidableEq, Repr

/-- One `s3_client.put_object` call, with the metadata the source attaches
(the `processed-date` timestamp is real-time-dependent and omitted). -/
structure PutCall where
  bucket : String
  key : String
  contentType : String
  metaOriginalSize : String
  metaProcessedSize : String
  metaVariant : String
  deriving DecidableEq, Repr

/-- One successful `sns_client.publish` call (the trailing
`Processed at: <timestamp>` line of the message is real-time-dependent and
omitted). -/
structure Publish where
  topicArn : String
  subject : String
  message : String
  deriving DecidableEq, Repr

/-- Injected collaborators and configuration: the S3 source store
(`none` = `get_object` raises), per-key success of `put_object`, success of
`sns_client.publish`, and the two environment variables. -/
structure Env where
  sourceStore : String → String → Option Bytes
  putOk : String → Bool
  publishOk : Bool
  processedBucket : String
  snsTopicArn : String

/-- One record of the triggering S3 event
(`record['s3']['bucket']['name']`, `record['s3']['object']['key']`). -/
structure S3Record where
  bucket : String
  key : String
  deriving DecidableEq, Repr

/-- The handler's success return value
`{'statusCode': 200, 'body': json.dumps(...)}`. -/
structure Response where
  statusCode : Nat
  body : String
  deriving DecidableEq, Repr

/-- Effect trace of one invocation: `get_object` calls, `put_object` calls
and successful `publish` calls, in order. -/
structure Trace where
  fetches : List (String × String)
  puts : List PutCall
  publishes : List Publish
  deriving DecidableEq, Repr

/-- The empty trace. -/
def Trace.empty : Trace := ⟨[], [], []⟩

/-- Concatenation of two traces (earlier effects first). -/
def Trace.append (t u : Trace) : Trace :=
  ⟨t.fetches ++ u.fetches, t.puts ++ u.puts, t.publishes ++ u.publishes⟩

/-- Decision of `a.startswith(sub)` on character lists. -/
def startsWithL : List Char → List Char → Bool
  | _, [] => true
  | [], _ :: _ => false
  | c :: cs, d :: ds => c = d && startsWithL cs ds

/-- Decision of Python's substring containment on character lists. -/
def containsL (sub : List Char) : List Char → Bool
  | [] => startsWithL [] sub
  | c :: cs => startsWithL (c :: cs) sub || containsL sub cs

/-- Python's `sub in s` on strings. -/
def strContains (s sub : String) : Bool :=
  containsL sub.toList s.toList

/-- The loop body of `process_image` over the tail of the `SIZES` table,
threading the (possibly mutated) shared image object.  Returns the
`results` association list on success together with the `put_object` calls
performed before returning or raising. -/
def processVariants (env : Env) (original_size : Nat × Nat) (original_key : String) :
    List (String × Nat × Nat) → PILImage →
      Except PErr (List (String × VariantEntry)) × List PutCall
  | [], _ => (.ok [], [])
  | (size_name, dimensions) :: rest, image =>
    let p := resize_image image dimensions
    let processed_key := "processed/" ++ size_name ++ "/" ++ original_key
    if env.putOk processed_key then
      let put : PutCall :=
        { bucket := env.processedBucket
          key := processed_key
          contentType := "image/jpeg"
          metaOriginalSize := toString original_size.1 ++ "x" ++ toString original_size.2
          metaProcessedSize := toString p.1.width ++ "x" ++ toString p.1.height
          metaVariant := size_name }
      match processVariants env original_size original_key rest p.2 with
      | (.ok results, puts) =>
        (.ok ((size_name, ⟨(p.1.width, p.1.height), processed_key⟩) :: results), put :: puts)
      | (.error e, puts) => (.error e, put :: puts)
    else
      (.error (.putError processed_key), [])

/-- `process_image(image_content, original_key)`: decode with `Image.open`
(raising on garbage bytes), then produce, upload and record every `SIZES`
variant in table order.  Any raised error propagates (re-raised by the
source's `except` block). -/
def process_image (env : Env) (image_content : Bytes) (original_key : String) :
    Except PErr (List (String × VariantEntry)) × List PutCall :=
  match image_content with
  | .garbage => (.error .decodeError, [])
  | .image image =>
    processVariants env (image.width, image.height) original_key SIZES image

/-- The notification message body built by `send_notification`, minus the
real-time `Processed at:` line. -/
def notificationMessage (image_key : String) (results : List (String × VariantEntry)) :
    String :=
  "\nImage Processing Complete!\n\nOriginal Image: " ++ image_key ++
    "\nProcessed Variants:\n" ++
    results.foldl
      (fun acc vi =>
        acc ++ "  - " ++ vi.1 ++ ": " ++ toString vi.2.size.1 ++ "x" ++
          toString vi.2.size.2 ++ " -> " ++ vi.2.key ++ "\n")
      ""

/-- `send_notification(image_key, results)`: one successful publish when
SNS accepts the call; a publish failure is caught and logged inside the
function, so nothing escapes and no successful publish is recorded. -/
def send_notification (env : Env) (image_key : String)
    (results : List (String × VariantEntry)) : List Publish :=
  if env.publishOk then
    [{ topicArn := env.snsTopicArn
       subject := "Image Processed: " ++ image_key
       message := notificationMessage image_key results }]
  else []

/-- The record loop of `lambda_handler`: per record, skip when the key
contains `'processed/'`, otherwise `get_object`, `process_image`,
`send_notification`.  The first uncaught error aborts the loop; the trace
records the effects performed up to that point. -/
def handleRecords (env : Env) : List S3Record → Except PErr Unit × Trace
  | [] => (.ok (), Trace.empty)
  | record :: rest =>
    if strContains record.key "processed/" then
      handleRecords env rest
    else
      match env.sourceStore record.bucket record.key with
      | none => (.error (.fetchError record.bucket record.key),
                 ⟨[(record.bucket, record.key)], [], []⟩)
      | some image_content =>
        match process_image env image_content record.key with
        | (.error e, puts) => (.error e, ⟨[(record.bucket, record.key)], puts, []⟩)
        | (.ok results, puts) =>
          let pubs := send_notification env record.key results
          let r := handleRecords env rest
          (r.1, Trace.append ⟨[(record.bucket, record.key)], puts, pubs⟩ r.2)

/-- `lambda_handler(event, context)`: iterate the records, return the fixed
200 response on success; any caught exception is logged and re-raised, so
the invocation fails with exactly the underlying error. -/
def lambda_handler (env : Env) (records : List S3Record) :
    Except PErr Response × Trace :=
  match handleRecords env records with
  | (.ok (), tr) =>
    (.ok ⟨200, "\x22Image processing completed successfully\x22"⟩, tr)
  | (.error e, tr) => (.error e, tr)

/-- The dimension part of the variant loop, with the effect plumbing
stripped: what `process_image` records for each variant when every upload
succeeds.  Used to state and prove the dimension claims. -/
def variantSizes (original_key : String) :
    List (String × Nat × Nat) → PILImage → List (String × VariantEntry)
  | [], _ => []
  | (size_name, dimensions) :: rest, image =>
    let p := resize_image image dimensions
    (size_name, ⟨(p.1.width, p.1.height), "processed/" ++ size_name ++ "/" ++ original_key⟩) ::
      variantSizes original_key rest p.2

/-- Aspect-ratio preservation up to rounding: the cross products of
`w' / h'` and `w / h` differ by at most one pixel's worth (the derived
coordinate is off by at most 1 from the exact rational value). -/
def aspectClose (w h w2 h2 : Nat) : Prop :=
  |(w2 * h : ℤ) - (h2 * w : ℤ)| ≤ (max w h : ℤ)

/-- A fully permissive environment whose source store holds a 2000×1000
RGBA image under every key. -/
def envOk : Env :=
  { sourceStore := fun _ _ => some (.image ⟨Mode.RGBA, 2000, 1000⟩)
    putOk := fun _ => true
    publishOk := true
    processedBucket := "processed-bucket"
    snsTopicArn := "arn:aws:sns:us-east-1:123456789012:image-processing" }

/-! Helper lemmas about the thumbnail dimension computation. -/

/-- The rounded coordinate never exceeds an integer bound that the exact
value respects. -/
lemma roundAspect_le {q : ℚ} {x : Nat} (key : Nat → ℚ) (hx : 0 < x) (hq : q ≤ (x : ℚ)) :
    roundAspect q key ≤ x := by
  have hcZ : ⌈q⌉ ≤ (x : ℤ) := Int.ceil_le.mpr (by exact_mod_cast hq)
  have hc : ⌈q⌉.toNat ≤ x := Int.toNat_le.mpr hcZ
  have hf : ⌊q⌋.toNat ≤ x := Int.toNat_le.mpr (le_trans (Int.floor_le_ceil q) hcZ)
  unfold roundAspect
  apply max_le _ hx
  split
  · exact hf
  · exact hc

/-- The rounded coordinate is within 1 of the exact value (for positive
exact values). -/
lemma roundAspect_close {q : ℚ} (key : Nat → ℚ) (hq : 0 < q) :
    |((roundAspect q key : Nat) : ℚ) - q| ≤ 1 := by
  have hf0 : (0 : ℤ) ≤ ⌊q⌋ := Int.floor_nonneg.mpr hq.le
  have hc0 : (0 : ℤ) < ⌈q⌉ := Int.lt_ceil.mpr (by exact_mod_cast hq)
  have hF : ((⌊q⌋.toNat : Nat) : ℚ) = ((⌊q⌋ : ℤ) : ℚ) := by
    rw [← Int.cast_natCast, Int.toNat_of_nonneg hf0]
  have hC : ((⌈q⌉.toNat : Nat) : ℚ) = ((⌈q⌉ : ℤ) : ℚ) := by
    rw [← Int.cast_natCast, Int.toNat_of_nonneg hc0.le]
  have hfloor : |((⌊q⌋.toNat : Nat) : ℚ) - q| ≤ 1 := by
    rw [hF]
    rw [abs_le]
    constructor
    · have := Int.lt_floor_add_one q
      linarith
    · have := Int.floor_le q
      linarith
  have hceil : |((⌈q⌉.toNat : Nat) : ℚ) - q| ≤ 1 := by
    rw [hC]
    rw [abs_le]
    constructor
    · have := Int.le_ceil q
      linarith
    · have := Int.ceil_lt_add_one q
      linarith
  have hone : ∀ n : Nat, |((n : Nat) : ℚ) - q| ≤ 1 → |((max n 1 : Nat) : ℚ) - q| ≤ 1 := by
    intro n hn
    rcases le_or_lt 1 n with h1 | h1
    · rwa [max_eq_left h1]
    · interval_cases n
      simp only [Nat.zero_max]
      have hq1 : q ≤ 1 := by
        have h0 : |((0 : Nat) : ℚ) - q| ≤ 1 := hn
        simp only [Nat.cast_zero, zero_sub, abs_neg, abs_of_pos hq] at h0
        exact h0
      rw [abs_le]
      constructor <;> push_cast <;> linarith
  unfold roundAspect
  split
  · exact hone _ hfloor
  · exact hone _ hceil

/-- A thumbnail call is a no-op when the image already fits in the box. -/
lemma thumbSize_noop {w h x y : Nat} (h1 : w ≤ x) (h2 : h ≤ y) :
    thumbSize w h x y = (w, h) := by
  simp only [thumbSize, if_pos (And.intro h1 h2)]

/-- Thumbnail dimensions always fit within the (positive) target box. -/
lemma thumbSize_le (w h x y : Nat) (hx : 0 < x) (hy : 0 < y) :
    (thumbSize w h x y).1 ≤ x ∧ (thumbSize w h x y).2 ≤ y := by
  by_cases h1 : w ≤ x ∧ h ≤ y
  · simp only [thumbSize, if_pos h1]
    exact ⟨h1.1, h1.2⟩
  · have hy' : (0 : ℚ) < (y : ℚ) := by exact_mod_cast hy
    by_cases h2 : ((w : ℚ) / (h : ℚ)) ≤ (x : ℚ) / (y : ℚ)
    · simp only [thumbSize, if_neg h1, if_pos h2]
      refine ⟨roundAspect_le _ hx ?_, le_refl y⟩
      calc (y : ℚ) * ((w : ℚ) / (h : ℚ)) ≤ (y : ℚ) * ((x : ℚ) / (y : ℚ)) :=
            mul_le_mul_of_nonneg_left h2 hy'.le
        _ = (x : ℚ) := by field_simp
    · simp only [thumbSize, if_neg h1, if_neg h2]
      refine ⟨le_refl x, roundAspect_le _ hy ?_⟩
      push_neg at h2
      have haspect : (0 : ℚ) < (w : ℚ) / (h : ℚ) := lt_of_le_of_lt (by positivity) h2
      rw [div_le_iff₀ haspect]
      have hxy : (x : ℚ) < ((w : ℚ) / (h : ℚ)) * (y : ℚ) := (div_lt_iff₀ hy').mp h2
      linarith [mul_comm ((w : ℚ) / (h : ℚ)) (y : ℚ)]

/-- Thumbnail dimensions preserve the source aspect ratio up to rounding. -/
lemma thumbSize_aspect (w h x y : Nat) (hw : 0 < w) (hh : 0 < h) (hx : 0 < x) (hy : 0 < y) :
    aspectClose w h (thumbSize w h x y).1 (thumbSize w h x y).2 := by
  have hw' : (0 : ℚ) < (w : ℚ) := by exact_mod_cast hw
  have hh' : (0 : ℚ) < (h : ℚ) := by exact_mod_cast hh
  have hx' : (0 : ℚ) < (x : ℚ) := by exact_mod_cast hx
  have hy' : (0 : ℚ) < (y : ℚ) := by exact_mod_cast hy
  have haspect : (0 : ℚ) < (w : ℚ) / (h : ℚ) := by positivity
  by_cases h1 : w ≤ x ∧ h ≤ y
  · simp only [thumbSize, if_pos h1, aspectClose]
    simp [mul_comm]
  · by_cases h2 : ((w : ℚ) / (h : ℚ)) ≤ (x : ℚ) / (y : ℚ)
    · simp only [thumbSize, if_neg h1, if_pos h2]
      set w2 := roundAspect ((y : ℚ) * ((w : ℚ) / (h : ℚ)))
        (fun n => |(w : ℚ) / (h : ℚ) - (n : ℚ) / (y : ℚ)|) with hw2
      have hq : (0 : ℚ) < (y : ℚ) * ((w : ℚ) / (h : ℚ)) := by positivity
      have hclose := roundAspect_close
        (fun n => |(w : ℚ) / (h : ℚ) - (n : ℚ) / (y : ℚ)|) hq
      rw [← hw2] at hclose
      have hmul : |((w2 : ℚ) - (y : ℚ) * ((w : ℚ) / (h : ℚ))) * (h : ℚ)| ≤ (h : ℚ) := by
        rw [abs_mul, abs_of_pos hh']
        calc |(w2 : ℚ) - (y : ℚ) * ((w : ℚ) / (h : ℚ))| * (h : ℚ) ≤ 1 * (h : ℚ) :=
              mul_le_mul_of_nonneg_right hclose hh'.le
          _ = (h : ℚ) := one_mul _
      have hqh : ((y : ℚ) * ((w : ℚ) / (h : ℚ))) * (h : ℚ) = (y : ℚ) * (w : ℚ) := by
        field_simp
      have hQ : |(w2 : ℚ) * (h : ℚ) - (y : ℚ) * (w : ℚ)| ≤ (h : ℚ) := by
        rw [← hqh]
        calc |(w2 : ℚ) * (h : ℚ) - ((y : ℚ) * ((w : ℚ) / (h : ℚ))) * (h : ℚ)|
            = |((w2 : ℚ) - (y : ℚ) * ((w : ℚ) / (h : ℚ))) * (h : ℚ)| := by ring_nf
          _ ≤ (h : ℚ) := hmul
      have hZ : |(w2 * h : ℤ) - (y * w : ℤ)| ≤ (h : ℤ) := by
        have : ((|(w2 * h : ℤ) - (y * w : ℤ)| : ℤ) : ℚ) ≤ ((h : ℤ) : ℚ) := by
          push_cast
          exact hQ
        exact_mod_cast this
      unfold aspectClose
      calc |(w2 * h : ℤ) - (y * w : ℤ)| ≤ (h : ℤ) := by exact_mod_cast hZ
        _ ≤ (max w h : ℤ) := by exact_mod_cast Nat.le_max_right w h
    · simp only [thumbSize, if_neg h1, if_neg h2]
      set h2' := roundAspect ((x : ℚ) / ((w : ℚ) / (h : ℚ)))
        (fun n => if n = 0 then 0 else |(w : ℚ) / (h : ℚ) - (x : ℚ) / (n : ℚ)|) with hh2
      have hq : (0 : ℚ) < (x : ℚ) / ((w : ℚ) / (h : ℚ)) := by positivity
      have hclose := roundAspect_close
        (fun n => if n = 0 then 0 else |(w : ℚ) / (h : ℚ) - (x : ℚ) / (n : ℚ)|) hq
      rw [← hh2] at hclose
      have hmul : |((h2' : ℚ) - (x : ℚ) / ((w : ℚ) / (h : ℚ))) * (w : ℚ)| ≤ (w : ℚ) := by
        rw [abs_mul, abs_of_pos hw']
        calc |(h2' : ℚ) - (x : ℚ) / ((w : ℚ) / (h : ℚ))| * (w : ℚ) ≤ 1 * (w : ℚ) :=
              mul_le_mul_of_nonneg_right hclose hw'.le
          _ = (w : ℚ) := one_mul _
      have hqw : ((x : ℚ) / ((w : ℚ) / (h : ℚ))) * (w : ℚ) = (x : ℚ) * (h : ℚ) := by
        field_simp
      have hQ : |(x : ℚ) * (h : ℚ) - (h2' : ℚ) * (w : ℚ)| ≤ (w : ℚ) := by
        rw [abs_sub_comm, ← hqw]
        calc |(h2' : ℚ) * (w : ℚ) - ((x : ℚ) / ((w : ℚ) / (h : ℚ))) * (w : ℚ)|
            = |((h2' : ℚ) - (x : ℚ) / ((w : ℚ) / (h : ℚ))) * (w : ℚ)| := by ring_nf
          _ ≤ (w : ℚ) := hmul
      have hZ : |(x * h : ℤ) - (h2' * w : ℤ)| ≤ (w : ℤ) := by
        have : ((|(x * h : ℤ) - (h2' * w : ℤ)| : ℤ) : ℚ) ≤ ((w : ℤ) : ℚ) := by
          push_cast
          exact hQ
        exact_mod_cast this
      unfold aspectClose
      calc |(x * h : ℤ) - (h2' * w : ℤ)| ≤ (w : ℤ) := hZ
        _ ≤ (max w h : ℤ) := by exact_mod_cast Nat.le_max_left w h

/-! Helper lemmas about the variant loop. -/

/-- Resizing never changes the color mode. -/
lemma PILImage.thumbnail_mode (image : PILImage) (t : Nat × Nat) :
    (image.thumbnail t).mode = image.mode := rfl

/-- Width of a thumbnail call. -/
lemma PILImage.thumbnail_width (image : PILImage) (t : Nat × Nat) :
    (image.thumbnail t).width = (thumbSize image.width image.height t.1 t.2).1 := rfl

/-- Height of a thumbnail call. -/
lemma PILImage.thumbnail_height (image : PILImage) (t : Nat × Nat) :
    (image.thumbnail t).height = (thumbSize image.width image.height t.1 t.2).2 := rfl

/-- A thumbnail call on an image that already fits the box returns the
image unchanged. -/
lemma PILImage.thumbnail_noop (image : PILImage) (t : Nat × Nat)
    (h1 : image.width ≤ t.1) (h2 : image.height ≤ t.2) : image.thumbnail t = image := by
  cases image
  simp [PILImage.thumbnail, thumbSize_noop h1 h2]

/-- On success, the `results` mapping of the variant loop is exactly its
effect-free rendering `variantSizes`. -/
lemma processVariants_ok_results (env : Env) (os : Nat × Nat) (k : String) :
    ∀ (l : List (String × Nat × Nat)) (image : PILImage)
      (results : List (String × VariantEntry)),
      (processVariants env os k l image).1 = .ok results →
      results = variantSizes k l image := by
  intro l
  induction l with
  | nil =>
    intro image results h
    simp only [processVariants] at h
    simp only [variantSizes]
    exact (Except.ok.inj h).symm
  | cons head rest ih =>
    obtain ⟨name, dims⟩ := head
    intro image results h
    simp only [processVariants] at h
    by_cases hput : env.putOk ("processed/" ++ name ++ "/" ++ k) = true
    · rw [if_pos hput] at h
      rcases hrec : processVariants env os k rest (resize_image image dims).2 with ⟨res, puts⟩
      rw [hrec] at h
      cases res with
      | error e => simp at h
      | ok rs =>
        simp only [variantSizes]
        have hrs : rs = variantSizes k rest (resize_image image dims).2 :=
          ih (resize_image image dims).2 rs (by rw [hrec])
        simp only at h
        rw [← (Except.ok.inj h), hrs]
    · rw [if_neg hput] at h
      simp at h

/-- Every successful `results` mapping lists the table's variant names, in
table order. -/
lemma processVariants_ok_names (env : Env) (os : Nat × Nat) (k : String)
    (l : List (String × Nat × Nat)) (image : PILImage)
    (results : List (String × VariantEntry))
    (h : (processVariants env os k l image).1 = .ok results) :
    results.map Prod.fst = l.map Prod.fst := by
  rw [processVariants_ok_results env os k l image results h]
  clear h
  induction l generalizing image with
  | nil => simp [variantSizes]
  | cons head rest ih =>
    obtain ⟨name, dims⟩ := head
    simp only [variantSizes, List.map_cons, List.cons.injEq]
    exact ⟨trivial, ih _⟩

/-- Every entry of `variantSizes` records the destination key
`processed/<variant>/<original key>`. -/
lemma variantSizes_key (k : String) :
    ∀ (l : List (String × Nat × Nat)) (image : PILImage) (v : String) (e : VariantEntry),
      (v, e) ∈ variantSizes k l image → e.key = "processed/" ++ v ++ "/" ++ k := by
  intro l
  induction l with
  | nil => intro image v e h; simp [variantSizes] at h
  | cons head rest ih =>
    obtain ⟨name, dims⟩ := head
    intro image v e h
    simp only [variantSizes, List.mem_cons] at h
    rcases h with h | h
    · obtain ⟨h1, h2⟩ := Prod.mk.inj h.symm
      rw [← h2, h1]
    · exact ih _ v e h

/-- Every `put_object` call of the variant loop writes under
`processed/<variant>/<original key>`. -/
lemma processVariants_puts_key (env : Env) (os : Nat × Nat) (k : String) :
    ∀ (l : List (String × Nat × Nat)) (image : PILImage) (p : PutCall),
      p ∈ (processVariants env os k l image).2 →
      p.key = "processed/" ++ p.metaVariant ++ "/" ++ k := by
  intro l
  induction l with
  | nil => intro image p h; simp [processVariants] at h
  | cons head rest ih =>
    obtain ⟨name, dims⟩ := head
    intro image p h
    simp only [processVariants] at h
    by_cases hput : env.putOk ("processed/" ++ name ++ "/" ++ k) = true
    · rw [if_pos hput] at h
      rcases hrec : processVariants env os k rest (resize_image image dims).2 with ⟨res, puts⟩
      rw [hrec] at h
      have htail : p ∈ puts → p.key = "processed/" ++ p.metaVariant ++ "/" ++ k := by
        intro hp
        exact ih (resize_image image dims).2 p (by rw [hrec]; exact hp)
      cases res with
      | error e =>
        simp only [List.mem_cons] at h
        rcases h with h | h
        · rw [h]
        · exact htail h
      | ok rs =>
        simp only [List.mem_cons] at h
        rcases h with h | h
        · rw [h]
        · exact htail h
    · rw [if_neg hput] at h
      simp at h

/-- Rendering of the variant loop for an image with an alpha channel or
palette: every variant is resized from a fresh RGB copy of the original. -/
lemma variantSizes_special (k : String) (image : PILImage)
    (hm : image.mode = Mode.RGBA ∨ image.mode = Mode.LA ∨ image.mode = Mode.P) :
    variantSizes k SIZES image =
      [("thumbnail", ⟨thumbSize image.width image.height 150 150,
          "processed/" ++ "thumbnail" ++ "/" ++ k⟩),
       ("mobile", ⟨thumbSize image.width image.height 480 480,
          "processed/" ++ "mobile" ++ "/" ++ k⟩),
       ("web", ⟨thumbSize image.width image.height 1024 1024,
          "processed/" ++ "web" ++ "/" ++ k⟩)] := by
  simp [variantSizes, SIZES, resize_image, hm, PILImage.thumbnail_width,
    PILImage.thumbnail_height, PILImage.thumbnail_mode, Prod.mk.eta]

/-- Rendering of the variant loop for an image in any other mode: the
first (thumbnail) resize mutates the shared image in place, and the later
boxes are no-ops on the shrunken image, so all three variants carry the
thumbnail dimensions. -/
lemma variantSizes_nonspecial (k : String) (image : PILImage)
    (hm : ¬(image.mode = Mode.RGBA ∨ image.mode = Mode.LA ∨ image.mode = Mode.P)) :
    variantSizes k SIZES image =
      [("thumbnail", ⟨thumbSize image.width image.height 150 150,
          "processed/" ++ "thumbnail" ++ "/" ++ k⟩),
       ("mobile", ⟨thumbSize image.width image.height 150 150,
          "processed/" ++ "mobile" ++ "/" ++ k⟩),
       ("web", ⟨thumbSize image.width image.height 150 150,
          "processed/" ++ "web" ++ "/" ++ k⟩)] := by
  have hb := thumbSize_le image.width image.height 150 150 (by norm_num) (by norm_num)
  have hm2 : ¬((image.thumbnail (150, 150)).mode = Mode.RGBA ∨
      (image.thumbnail (150, 150)).mode = Mode.LA ∨
      (image.thumbnail (150, 150)).mode = Mode.P) := by
    rw [PILImage.thumbnail_mode]
    exact hm
  have hnoop2 : (image.thumbnail (150, 150)).thumbnail (480, 480) =
      image.thumbnail (150, 150) := by
    apply PILImage.thumbnail_noop
    · rw [PILImage.thumbnail_width]
      exact le_trans hb.1 (by norm_num)
    · rw [PILImage.thumbnail_height]
      exact le_trans hb.2 (by norm_num)
  have hnoop3 : (image.thumbnail (150, 150)).thumbnail (1024, 1024) =
      image.thumbnail (150, 150) := by
    apply PILImage.thumbnail_noop
    · rw [PILImage.thumbnail_width]
      exact le_trans hb.1 (by norm_num)
    · rw [PILImage.thumbnail_height]
      exact le_trans hb.2 (by norm_num)
  simp [variantSizes, SIZES, resize_image, hm, hm2, hnoop2, hnoop3,
    PILImage.thumbnail_width, PILImage.thumbnail_height, Prod.mk.eta]

/-- Success of `process_image` determines the `results` dict as the
effect-free rendering of the variant loop. -/
lemma process_image_ok_results (env : Env) (image : PILImage) (k : String)
    (results : List (String × VariantEntry))
    (h : (process_image env (.image image) k).1 = .ok results) :
    results = variantSizes k SIZES image :=
  processVariants_ok_results env (image.width, image.height) k SIZES image results h

/-! Helper lemmas about the orchestrator loop. -/

/-- Appending to the empty trace. -/
lemma Trace.empty_append (t : Trace) : Trace.append Trace.empty t = t := by
  cases t
  simp [Trace.append, Trace.empty]

/-- Trace concatenation is associative. -/
lemma Trace.append_assoc (t u v : Trace) :
    Trace.append (Trace.append t u) v = Trace.append t (Trace.append u v) := by
  cases t; cases u; cases v
  simp [Trace.append]

/-- The pattern `[]` matches any list. -/
lemma startsWithL_nil (s : List Char) : startsWithL s [] = true := by
  cases s <;> rfl

/-- A list starts with itself (up to a trailing suffix). -/
lemma startsWithL_append : ∀ (sub t : List Char), startsWithL (sub ++ t) sub = true := by
  intro sub
  induction sub with
  | nil => intro t; rw [List.nil_append]; exact startsWithL_nil t
  | cons c cs ih => intro t; simp [startsWithL, ih]

/-- Substring containment survives prepending characters. -/
lemma containsL_append_right : ∀ (pre s sub : List Char),
    containsL sub s = true → containsL sub (pre ++ s) = true := by
  intro pre
  induction pre with
  | nil => intro s sub h; simpa using h
  | cons c cs ih =>
    intro s sub h
    simp only [List.cons_append, containsL, Bool.or_eq_true]
    exact Or.inr (ih s sub h)

/-- A list starting with the pattern contains the pattern. -/
lemma containsL_of_startsWithL : ∀ (s sub : List Char),
    startsWithL s sub = true → containsL sub s = true := by
  intro s sub h
  cases s with
  | nil =>
    cases sub with
    | nil => rfl
    | cons d ds => simp [startsWithL] at h
  | cons c cs => simp [containsL, h]

/-- Python's substring test succeeds on any key of the form
`a ++ sub ++ b`. -/
lemma strContains_parts (a sub b : String) : strContains (a ++ sub ++ b) sub = true := by
  unfold strContains
  have h : (a ++ sub ++ b).toList = a.toList ++ (sub.toList ++ b.toList) := by
    simp [String.toList, String.data_append]
  rw [h]
  apply containsL_append_right
  exact containsL_of_startsWithL _ _ (startsWithL_append _ _)

/-- A record whose key passes the `'processed/' in key` test contributes
nothing: the loop continues as if the record were absent. -/
lemma handleRecords_skip (env : Env) (record : S3Record) (rest : List S3Record)
    (h : strContains record.key "processed/" = true) :
    handleRecords env (record :: rest) = handleRecords env rest := by
  simp [handleRecords, h]

/-- A failing `get_object` on a non-skipped head record aborts the loop at
once, with only that fetch in the trace. -/
lemma handleRecords_fetch_fail (env : Env) (record : S3Record) (rest : List S3Record)
    (hskip : strContains record.key "processed/" = false)
    (hfetch : env.sourceStore record.bucket record.key = none) :
    handleRecords env (record :: rest) =
      (.error (.fetchError record.bucket record.key),
       ⟨[(record.bucket, record.key)], [], []⟩) := by
  simp [handleRecords, hskip, hfetch]

/-- Garbage bytes on a non-skipped head record abort the loop with a decode
error, after exactly the one fetch. -/
lemma handleRecords_decode_fail (env : Env) (record : S3Record) (rest : List S3Record)
    (hskip : strContains record.key "processed/" = false)
    (hsrc : env.sourceStore record.bucket record.key = some .garbage) :
    handleRecords env (record :: rest) =
      (.error .decodeError, ⟨[(record.bucket, record.key)], [], []⟩) := by
  simp [handleRecords, hskip, hsrc, process_image]

/-- Sequential decomposition of the loop after a successful prefix. -/
lemma handleRecords_append_ok (env : Env) : ∀ (a b : List S3Record),
    (handleRecords env a).1 = .ok () →
    handleRecords env (a ++ b) =
      ((handleRecords env b).1,
       Trace.append (handleRecords env a).2 (handleRecords env b).2) := by
  intro a
  induction a with
  | nil =>
    intro b _
    rw [List.nil_append]
    show handleRecords env b =
      ((handleRecords env b).1, Trace.append Trace.empty (handleRecords env b).2)
    rw [Trace.empty_append]
  | cons record as ih =>
    intro b h
    by_cases hskip : strContains record.key "processed/" = true
    · rw [List.cons_append, handleRecords_skip env record _ hskip,
        handleRecords_skip env record _ hskip]
      rw [handleRecords_skip env record _ hskip] at h
      exact ih b h
    · have hskip' : strContains record.key "processed/" = false :=
        Bool.not_eq_true _ ▸ eq_false_of_ne_true hskip
      cases hsrc : env.sourceStore record.bucket record.key with
      | none =>
        rw [handleRecords_fetch_fail env record as hskip' hsrc] at h
        simp at h
      | some content =>
        rcases hpi : process_image env content record.key with ⟨res, puts⟩
        cases res with
        | error e =>
          simp only [handleRecords, hskip', hsrc, hpi] at h
          simp at h
        | ok results =>
          have hfst : (handleRecords env (record :: as)).1 = (handleRecords env as).1 := by
            simp [handleRecords, hskip', hsrc, hpi]
          have hsnd : (handleRecords env (record :: as)).2 =
              Trace.append
                ⟨[(record.bucket, record.key)], puts,
                  send_notification env record.key results⟩
                (handleRecords env as).2 := by
            simp [handleRecords, hskip', hsrc, hpi]
          rw [hfst] at h
          have hih := ih b h
          have hfst2 : (handleRecords env ((record :: as) ++ b)).1 =
              (handleRecords env (as ++ b)).1 := by
            rw [List.cons_append]
            simp [handleRecords, hskip', hsrc, hpi]
          have hsnd2 : (handleRecords env ((record :: as) ++ b)).2 =
              Trace.append
                ⟨[(record.bucket, record.key)], puts,
                  send_notification env record.key results⟩
                (handleRecords env (as ++ b)).2 := by
            rw [List.cons_append]
            simp [handleRecords, hskip', hsrc, hpi]
          have goal2 : (handleRecords env ((record :: as) ++ b)).2 =
              Trace.append (handleRecords env (record :: as)).2 (handleRecords env b).2 := by
            rw [hsnd2, hsnd, hih, Trace.append_assoc]
          have goal1 : (handleRecords env ((record :: as) ++ b)).1 =
              (handleRecords env b).1 := by
            rw [hfst2, hih]
          rw [← goal1, ← goal2]

/-- The variant loop never reads the SNS success flag. -/
lemma processVariants_publishOk (env : Env) (b : Bool) (os : Nat × Nat) (k : String) :
    ∀ (l : List (String × Nat × Nat)) (image : PILImage),
      processVariants { env with publishOk := b } os k l image =
        processVariants env os k l image := by
  intro l
  induction l with
  | nil => intro image; rfl
  | cons head rest ih =>
    obtain ⟨name, dims⟩ := head
    intro image
    simp only [processVariants, ih]

/-- The generator never reads the SNS success flag. -/
lemma process_image_publishOk (env : Env) (b : Bool) (content : Bytes) (k : String) :
    process_image { env with publishOk := b } content k = process_image env content k := by
  cases content with
  | garbage => rfl
  | image img =>
    simp only [process_image]
    exact processVariants_publishOk env b (img.width, img.height) k SIZES img

/-- The loop's control flow and result are independent of whether SNS
publishes succeed. -/
lemma handleRecords_publishOk_fst (env : Env) (b : Bool) : ∀ (rs : List S3Record),
    (handleRecords { env with publishOk := b } rs).1 = (handleRecords env rs).1 := by
  intro rs
  induction rs with
  | nil => rfl
  | cons record rest ih =>
    by_cases hskip : strContains record.key "processed/" = true
    · rw [handleRecords_skip _ record rest hskip, handleRecords_skip env record rest hskip]
      exact ih
    · have hskip' : strContains record.key "processed/" = false :=
        Bool.not_eq_true _ ▸ eq_false_of_ne_true hskip
      cases hsrc : env.sourceStore record.bucket record.key with
      | none =>
        have hsrc' : ({ env with publishOk := b } : Env).sourceStore
            record.bucket record.key = none := hsrc
        rw [handleRecords_fetch_fail { env with publishOk := b } record rest hskip' hsrc',
          handleRecords_fetch_fail env record rest hskip' hsrc]
      | some content =>
        have hsrc' : ({ env with publishOk := b } : Env).sourceStore
            record.bucket record.key = some content := hsrc
        rcases hpi : process_image env content record.key with ⟨res, puts⟩
        have hpi' : process_image { env with publishOk := b } content record.key =
            (res, puts) := by rw [process_image_publishOk, hpi]
        cases res with
        | error e => simp [handleRecords, hskip', hsrc, hsrc', hpi, hpi']
        | ok results => simp [handleRecords, hskip', hsrc, hsrc', hpi, hpi', ih]

/-- The handler's returned status is independent of whether SNS publishes
succeed. -/
lemma lambda_handler_publishOk_fst (env : Env) (b : Bool) (rs : List S3Record) :
    (lambda_handler { env with publishOk := b } rs).1 = (lambda_handler env rs).1 := by
  unfold lambda_handler
  have h := handleRecords_publishOk_fst env b rs
  rcases h1 : handleRecords { env with publishOk := b } rs with ⟨r1, t1⟩
  rcases h2 : handleRecords env rs with ⟨r2, t2⟩
  rw [h1, h2] at h
  simp only at h
  subst h
  cases r1 with
  | ok u => cases u; rfl
  | error e => rfl

/-- Python's substring test succeeds when the string starts with the
pattern. -/
lemma strContains_append_left (sub b : String) : strContains (sub ++ b) sub = true := by
  unfold strContains
  have h : (sub ++ b).toList = sub.toList ++ b.toList := by
    simp [String.toList, String.data_append]
  rw [h]
  exact containsL_of_startsWithL _ _ (startsWithL_append _ _)

/-- When every upload succeeds, the variant loop returns exactly its
effect-free rendering. -/
lemma processVariants_all_ok (env : Env) (hput : ∀ s, env.putOk s = true)
    (os : Nat × Nat) (k : String) :
    ∀ (l : List (String × Nat × Nat)) (image : PILImage),
      (processVariants env os k l image).1 = .ok (variantSizes k l image) := by
  intro l
  induction l with
  | nil => intro image; rfl
  | cons head rest ih =>
    obtain ⟨name, dims⟩ := head
    intro image
    simp only [processVariants, variantSizes, hput, if_true]
    rcases hrec : processVariants env os k rest (resize_image image dims).2 with ⟨res, puts⟩
    have hres := ih (resize_image image dims).2
    rw [hrec] at hres
    simp only at hres
    subst hres
    rfl

/-- When every upload succeeds, `process_image` returns exactly the
effect-free rendering of the variant loop over the full table. -/
lemma process_image_all_ok (env : Env) (hput : ∀ s, env.putOk s = true)
    (image : PILImage) (k : String) :
    (process_image env (.image image) k).1 = .ok (variantSizes k SIZES image) :=
  processVariants_all_ok env hput (image.width, image.height) k SIZES image

/-- Concrete thumbnail dimensions for a 2000×1000 source in a 150×150 box. -/
lemma thumbSize_2000_1000_150 : thumbSize 2000 1000 150 150 = (150, 75) := by
  norm_num [thumbSize, roundAspect]
  rfl

/-- Concrete thumbnail dimensions for a 2000×1000 source in a 480×480 box. -/
lemma thumbSize_2000_1000_480 : thumbSize 2000 1000 480 480 = (480, 240) := by
  norm_num [thumbSize, roundAspect]
  rfl

/-- Concrete thumbnail dimensions for a 2000×1000 source in a 1024×1024
box. -/
lemma thumbSize_2000_1000_1024 : thumbSize 2000 1000 1024 1024 = (1024, 512) := by
  norm_num [thumbSize, roundAspect]
  rfl

/-- Concrete thumbnail dimensions for a 500×500 source in a 150×150 box. -/
lemma thumbSize_500_500_150 : thumbSize 500 500 150 150 = (150, 150) := by
  norm_num [thumbSize, roundAspect]
  rfl

/-- Appending the empty trace is the identity. -/
lemma Trace.append_empty (t : Trace) : Trace.append t Trace.empty = t := by
  cases t
  simp [Trace.append, Trace.empty]

/-- One fully successful head record contributes its fetch, its uploads and
its notification to the trace, then the loop continues. -/
lemma handleRecords_ok_head (env : Env) (record : S3Record) (rest : List S3Record)
    (hskip : strContains record.key "processed/" = false)
    (content : Bytes) (hsrc : env.sourceStore record.bucket record.key = some content)
    (results : List (String × VariantEntry)) (puts : List PutCall)
    (hpi : process_image env content record.key = (.ok results, puts)) :
    handleRecords env (record :: rest) =
      ((handleRecords env rest).1,
       Trace.append
         ⟨[(record.bucket, record.key)], puts,
           send_notification env record.key results⟩
         (handleRecords env rest).2) := by
  simp [handleRecords, hskip, hsrc, hpi]

/-- When every upload succeeds, the variant loop writes exactly one object
per table entry, keyed `processed/<variant>/<original key>`, in table
order. -/
lemma processVariants_all_ok_puts (env : Env) (hput : ∀ s, env.putOk s = true)
    (os : Nat × Nat) (k : String) :
    ∀ (l : List (String × Nat × Nat)) (image : PILImage),
      ((processVariants env os k l image).2).map PutCall.key =
        l.map (fun nd => "processed/" ++ nd.1 ++ "/" ++ k) := by
  intro l
  induction l with
  | nil => intro image; rfl
  | cons head rest ih =>
    obtain ⟨name, dims⟩ := head
    intro image
    simp only [processVariants, hput, if_true]
    rcases hrec : processVariants env os k rest (resize_image image dims).2 with ⟨res, puts⟩
    have hmap := ih (resize_image image dims).2
    rw [hrec] at hmap
    cases res with
    | error e => simpa using hmap
    | ok rs => simpa using hmap

/-! Claim theorems. -/

/-- C3: whenever the Variant Generator succeeds, the key sequence of the
returned result mapping is exactly the `SIZES` table's key sequence
`thumbnail, mobile, web`, in the table's iteration order — no partial
variant set is ever returned as a success. -/
theorem c3_complete_variant_set (env : Env) (image : PILImage) (key : String)
    (results : List (String × VariantEntry))
    (hok : (process_image env (.image image) key).1 = .ok results) :
    results.map Prod.fst = SIZES.map Prod.fst ∧
      SIZES.map Prod.fst = ["thumbnail", "mobile", "web"] :=
  ⟨processVariants_ok_names env (image.width, image.height) key SIZES image results hok,
    by simp [SIZES]⟩

/-- C3 witness: a concrete successful run over a 10×10 RGB source returns
exactly the table's keys in order. -/
theorem c3_complete_variant_set_witness :
    ([("thumbnail", (⟨(10, 10), "processed/thumbnail/k"⟩ : VariantEntry)),
      ("mobile", ⟨(10, 10), "processed/mobile/k"⟩),
      ("web", ⟨(10, 10), "processed/web/k"⟩)].map Prod.fst = SIZES.map Prod.fst) ∧
      SIZES.map Prod.fst = ["thumbnail", "mobile", "web"] :=
  c3_complete_variant_set envOk ⟨Mode.RGB, 10, 10⟩ "k"
    [("thumbnail", ⟨(10, 10), "processed/thumbnail/k"⟩),
     ("mobile", ⟨(10, 10), "processed/mobile/k"⟩),
     ("web", ⟨(10, 10), "processed/web/k"⟩)]
    (by
      have h := process_image_all_ok envOk (fun s => rfl) ⟨Mode.RGB, 10, 10⟩ "k"
      rw [h, variantSizes_nonspecial _ _ (by decide)]
      dsimp only
      rw [show thumbSize 10 10 150 150 = (10, 10) from
        thumbSize_noop (by norm_num) (by norm_num)]
      exact congrArg Except.ok (by decide))

/-- C5: a record whose object key has `processed/` as a path prefix is
skipped entirely — the loop behaves as if the record were absent (zero
fetches, zero writes, zero publishes for it), and an invocation consisting
only of such a record succeeds with an empty effect trace. -/
theorem c5_processed_prefix_skip (env : Env) (record : S3Record) (rest : List S3Record)
    (h : ∃ t, record.key = "processed/" ++ t) :
    handleRecords env (record :: rest) = handleRecords env rest ∧
      lambda_handler env [record] =
        (.ok ⟨200, "\x22Image processing completed successfully\x22"⟩, Trace.empty) := by
  obtain ⟨t, ht⟩ := h
  have hc : strContains record.key "processed/" = true := by
    rw [ht]
    exact strContains_append_left "processed/" t
  refine ⟨handleRecords_skip env record rest hc, ?_⟩
  unfold lambda_handler
  rw [handleRecords_skip env record [] hc]
  rfl

/-- C5 witness: re-invoking on the already-processed key
`processed/thumbnail/vacation.png` leaves the loop unchanged and produces
an empty trace. -/
theorem c5_processed_prefix_skip_witness :
    handleRecords envOk [⟨"uploads", "processed/thumbnail/vacation.png"⟩] =
        handleRecords envOk [] ∧
      lambda_handler envOk [⟨"uploads", "processed/thumbnail/vacation.png"⟩] =
        (.ok ⟨200, "\x22Image processing completed successfully\x22"⟩, Trace.empty) :=
  c5_processed_prefix_skip envOk ⟨"uploads", "processed/thumbnail/vacation.png"⟩ []
    ⟨"thumbnail/vacation.png", rfl⟩

/-- C6: in every successful generator run, the key recorded for variant `v`
in the result mapping, and the key of every object written, is exactly
`processed/<variant>/<original key>`. -/
theorem c6_destination_keys (env : Env) (image : PILImage) (key : String)
    (results : List (String × VariantEntry))
    (hok : (process_image env (.image image) key).1 = .ok results) :
    (∀ v e, (v, e) ∈ results → e.key = "processed/" ++ v ++ "/" ++ key) ∧
      (∀ p, p ∈ (process_image env (.image image) key).2 →
        p.key = "processed/" ++ p.metaVariant ++ "/" ++ key) := by
  constructor
  · intro v e hm
    rw [process_image_ok_results env image key results hok] at hm
    exact variantSizes_key key SIZES image v e hm
  · intro p hp
    exact processVariants_puts_key env (image.width, image.height) key SIZES image p hp

/-- C6 witness: the thumbnail entry of a concrete run records exactly
`processed/thumbnail/k`. -/
theorem c6_destination_keys_witness :
    (⟨(10, 10), "processed/thumbnail/k"⟩ : VariantEntry).key =
      "processed/" ++ "thumbnail" ++ "/" ++ "k" :=
  (c6_destination_keys envOk ⟨Mode.RGB, 10, 10⟩ "k"
    [("thumbnail", ⟨(10, 10), "processed/thumbnail/k"⟩),
     ("mobile", ⟨(10, 10), "processed/mobile/k"⟩),
     ("web", ⟨(10, 10), "processed/web/k"⟩)]
    (by
      have h := process_image_all_ok envOk (fun s => rfl) ⟨Mode.RGB, 10, 10⟩ "k"
      rw [h, variantSizes_nonspecial _ _ (by decide)]
      dsimp only
      rw [show thumbSize 10 10 150 150 = (10, 10) from
        thumbSize_noop (by norm_num) (by norm_num)]
      exact congrArg Except.ok (by decide))).1
    "thumbnail" ⟨(10, 10), "processed/thumbnail/k"⟩ (by decide)

/-- C9: the skip test is a substring match, not a path-prefix match: a
record whose key contains `processed/` anywhere — here as an interior
segment `pre ++ processed/ ++ post` — is skipped entirely, contributing no
fetch, no writes and no publish. -/
theorem c9_substring_skip (env : Env) (record : S3Record) (rest : List S3Record)
    (pre post : String) (h : record.key = pre ++ "processed/" ++ post) :
    handleRecords env (record :: rest) = handleRecords env rest := by
  apply handleRecords_skip
  rw [h]
  exact strContains_parts pre "processed/" post

/-- C9 witness: the key `photos/processed/pic.png`, where `processed/` is
interior and not a path prefix, is skipped. -/
theorem c9_substring_skip_witness :
    handleRecords envOk [⟨"uploads", "photos/processed/pic.png"⟩] =
      handleRecords envOk [] :=
  c9_substring_skip envOk ⟨"uploads", "photos/processed/pic.png"⟩ []
    "photos/" "pic.png" rfl

/-- C7: a failure inside the notification publish is caught locally and
never changes the invocation's reported status (the handler's result is
identical whether SNS accepts or rejects), whereas a failing source fetch
or failing image decode on a non-skipped record always fails the
invocation by propagating the error. -/
theorem c7_notify_vs_fetch_decode (env : Env) (rs : List S3Record) (b : Bool)
    (record : S3Record) (rest : List S3Record)
    (hskip : strContains record.key "processed/" = false) :
    ((lambda_handler { env with publishOk := b } rs).1 = (lambda_handler env rs).1)
    ∧ ((lambda_handler { env with sourceStore := fun _ _ => none } (record :: rest)).1 =
        .error (.fetchError record.bucket record.key))
    ∧ ((lambda_handler { env with sourceStore := fun _ _ => some .garbage }
          (record :: rest)).1 = .error .decodeError) := by
  refine ⟨lambda_handler_publishOk_fst env b rs, ?_, ?_⟩
  · have h := handleRecords_fetch_fail { env with sourceStore := fun _ _ => none }
      record rest hskip rfl
    unfold lambda_handler
    rw [h]
  · have h := handleRecords_decode_fail { env with sourceStore := fun _ _ => some .garbage }
      record rest hskip rfl
    unfold lambda_handler
    rw [h]

/-- C7 witness: at a concrete event, the status is unchanged by a publish
failure, while fetch and decode failures surface as errors. -/
theorem c7_notify_vs_fetch_decode_witness :
    ((lambda_handler { envOk with publishOk := false }
        [⟨"uploads", "vacation.png"⟩]).1 =
      (lambda_handler envOk [⟨"uploads", "vacation.png"⟩]).1)
    ∧ ((lambda_handler { envOk with sourceStore := fun _ _ => none }
          [⟨"uploads", "vacation.png"⟩]).1 =
        .error (.fetchError "uploads" "vacation.png"))
    ∧ ((lambda_handler { envOk with sourceStore := fun _ _ => some .garbage }
          [⟨"uploads", "vacation.png"⟩]).1 = .error .decodeError) :=
  c7_notify_vs_fetch_decode envOk [⟨"uploads", "vacation.png"⟩] false
    ⟨"uploads", "vacation.png"⟩ [] (by decide)

/-- C8: if the fetch of a record fails (after any successfully handled
prefix of records), the whole invocation aborts with that fetch error: no
later record is fetched, processed or notified — the final trace is the
prefix's effects plus the single failing fetch — and no success status is
returned. -/
theorem c8_fetch_aborts_invocation (env : Env) (pre rest : List S3Record)
    (record : S3Record)
    (hskip : strContains record.key "processed/" = false)
    (hfetch : env.sourceStore record.bucket record.key = none)
    (hpre : (handleRecords env pre).1 = .ok ()) :
    lambda_handler env (pre ++ record :: rest) =
      (.error (.fetchError record.bucket record.key),
       Trace.append (handleRecords env pre).2
         ⟨[(record.bucket, record.key)], [], []⟩) := by
  have happ := handleRecords_append_ok env pre (record :: rest) hpre
  have hff := handleRecords_fetch_fail env record rest hskip hfetch
  unfold lambda_handler
  rw [happ, hff]

/-- C8 witness: with a dead source store, a skipped prefix record followed
by a failing fetch aborts the invocation; the trailing record contributes
nothing to the trace. -/
theorem c8_fetch_aborts_invocation_witness :
    lambda_handler { envOk with sourceStore := fun _ _ => none }
        ([⟨"uploads", "processed/old.png"⟩] ++
          ⟨"uploads", "a.png"⟩ :: [⟨"uploads", "b.png"⟩]) =
      (.error (.fetchError "uploads" "a.png"),
       Trace.append
         (handleRecords { envOk with sourceStore := fun _ _ => none }
           [⟨"uploads", "processed/old.png"⟩]).2
         ⟨[("uploads", "a.png")], [], []⟩) :=
  c8_fetch_aborts_invocation { envOk with sourceStore := fun _ _ => none }
    [⟨"uploads", "processed/old.png"⟩] [⟨"uploads", "b.png"⟩]
    ⟨"uploads", "a.png"⟩ (by decide) rfl rfl

/-- C1 counterexample: the no-upscaling claim fails as stated.  For a
500×500 RGB source, the web variant's box 1024×1024 is strictly larger than
the source, yet the web variant comes out 150×150 instead of 500×500: the
thumbnail pass mutated the single shared image in place (no RGBA/LA/P
flatten copy is made for RGB), so later variants resize the already
shrunken image. -/
theorem c1_counterexample :
    ("web", ((1024 : Nat), (1024 : Nat))) ∈ SIZES
    ∧ (500 : Nat) < 1024
    ∧ (process_image envOk (.image ⟨Mode.RGB, 500, 500⟩) "photo.png").1 =
        .ok [("thumbnail", ⟨(150, 150), "processed/thumbnail/photo.png"⟩),
             ("mobile", ⟨(150, 150), "processed/mobile/photo.png"⟩),
             ("web", ⟨(150, 150), "processed/web/photo.png"⟩)]
    ∧ ((150, 150) : Nat × Nat) ≠ ((500, 500) : Nat × Nat) := by
  refine ⟨by decide, by norm_num, ?_, by decide⟩
  have h := process_image_all_ok envOk (fun s => rfl) ⟨Mode.RGB, 500, 500⟩ "photo.png"
  rw [h, variantSizes_nonspecial _ _ (by decide)]
  dsimp only
  rw [thumbSize_500_500_150]
  exact congrArg Except.ok (by decide)

/-- C1 (amended): for every source image and every variant whose target
bounding box is strictly larger than the source dimensions, the variant's
resulting dimensions equal the source dimensions, provided the source has
an alpha channel or palette (mode RGBA, LA or P — so each variant is
computed from a fresh flattened copy) or already fits within the smallest
(thumbnail) bounding box. -/
theorem c1_no_upscale_amended (env : Env) (image : PILImage) (key : String)
    (results : List (String × VariantEntry))
    (hmode : image.mode = Mode.RGBA ∨ image.mode = Mode.LA ∨ image.mode = Mode.P ∨
      (image.width ≤ 150 ∧ image.height ≤ 150))
    (hok : (process_image env (.image image) key).1 = .ok results) :
    ∀ v W H e, (v, (W, H)) ∈ SIZES → (v, e) ∈ results →
      image.width < W → image.height < H →
      e.size = (image.width, image.height) := by
  intro v W H e hvs hve hltW hltH
  rw [process_image_ok_results env image key results hok] at hve
  simp only [SIZES, List.mem_cons, List.not_mem_nil, or_false, Prod.mk.injEq] at hvs
  by_cases hm : image.mode = Mode.RGBA ∨ image.mode = Mode.LA ∨ image.mode = Mode.P
  · rw [variantSizes_special key image hm] at hve
    simp only [List.mem_cons, List.not_mem_nil, or_false, Prod.mk.injEq] at hve
    rcases hvs with ⟨hv, hW, hH⟩ | ⟨hv, hW, hH⟩ | ⟨hv, hW, hH⟩ <;>
      subst hv <;> subst hW <;> subst hH <;>
        rcases hve with ⟨hv2, he⟩ | ⟨hv2, he⟩ | ⟨hv2, he⟩ <;>
          first
            | exact absurd hv2 (by decide)
            | (subst he
               exact thumbSize_noop hltW.le hltH.le)
  · have hfit : image.width ≤ 150 ∧ image.height ≤ 150 := by tauto
    rw [variantSizes_nonspecial key image hm] at hve
    simp only [List.mem_cons, List.not_mem_nil, or_false, Prod.mk.injEq] at hve
    rcases hve with ⟨hv2, he⟩ | ⟨hv2, he⟩ | ⟨hv2, he⟩ <;>
      subst he <;> exact thumbSize_noop hfit.1 hfit.2

/-- C1 witness: a 100×100 RGBA source fits in every box, and its web
variant keeps the source dimensions. -/
theorem c1_no_upscale_amended_witness :
    (⟨(100, 100), "processed/web/k"⟩ : VariantEntry).size = ((100 : Nat), (100 : Nat)) :=
  c1_no_upscale_amended envOk ⟨Mode.RGBA, 100, 100⟩ "k"
    [("thumbnail", ⟨(100, 100), "processed/thumbnail/k"⟩),
     ("mobile", ⟨(100, 100), "processed/mobile/k"⟩),
     ("web", ⟨(100, 100), "processed/web/k"⟩)]
    (Or.inl rfl)
    (by
      have h := process_image_all_ok envOk (fun s => rfl) ⟨Mode.RGBA, 100, 100⟩ "k"
      rw [h, variantSizes_special _ _ (by decide)]
      dsimp only
      rw [show thumbSize 100 100 150 150 = (100, 100) from
            thumbSize_noop (by norm_num) (by norm_num),
          show thumbSize 100 100 480 480 = (100, 100) from
            thumbSize_noop (by norm_num) (by norm_num),
          show thumbSize 100 100 1024 1024 = (100, 100) from
            thumbSize_noop (by norm_num) (by norm_num)]
      exact congrArg Except.ok (by decide))
    "web" 1024 1024 ⟨(100, 100), "processed/web/k"⟩
    (by decide) (by decide) (by norm_num) (by norm_num)

/-- C2: in every successful generator run on a source with positive
dimensions, every variant's resulting width and height are at most the
table's box for that variant, and the variant's aspect ratio matches the
source's within rounding tolerance (cross products within one source pixel
of each other). -/
theorem c2_fit_and_aspect (env : Env) (image : PILImage) (key : String)
    (results : List (String × VariantEntry))
    (hw : 0 < image.width) (hh : 0 < image.height)
    (hok : (process_image env (.image image) key).1 = .ok results) :
    ∀ v W H e, (v, (W, H)) ∈ SIZES → (v, e) ∈ results →
      e.size.1 ≤ W ∧ e.size.2 ≤ H ∧
        aspectClose image.width image.height e.size.1 e.size.2 := by
  intro v W H e hvs hve
  rw [process_image_ok_results env image key results hok] at hve
  have facts : ∀ X Y W2 H2 : Nat, 0 < X → 0 < Y → X ≤ W2 → Y ≤ H2 →
      (thumbSize image.width image.height X Y).1 ≤ W2 ∧
        (thumbSize image.width image.height X Y).2 ≤ H2 ∧
        aspectClose image.width image.height
          (thumbSize image.width image.height X Y).1
          (thumbSize image.width image.height X Y).2 := fun X Y W2 H2 hX hY hXW hYH =>
    ⟨le_trans (thumbSize_le _ _ X Y hX hY).1 hXW,
     le_trans (thumbSize_le _ _ X Y hX hY).2 hYH,
     thumbSize_aspect _ _ X Y hw hh hX hY⟩
  simp only [SIZES, List.mem_cons, List.not_mem_nil, or_false, Prod.mk.injEq] at hvs
  by_cases hm : image.mode = Mode.RGBA ∨ image.mode = Mode.LA ∨ image.mode = Mode.P
  · rw [variantSizes_special key image hm] at hve
    simp only [List.mem_cons, List.not_mem_nil, or_false, Prod.mk.injEq] at hve
    rcases hvs with ⟨hv, hW, hH⟩ | ⟨hv, hW, hH⟩ | ⟨hv, hW, hH⟩ <;>
      subst hv <;> subst hW <;> subst hH <;>
        rcases hve with ⟨hv2, he⟩ | ⟨hv2, he⟩ | ⟨hv2, he⟩ <;>
          first
            | exact absurd hv2 (by decide)
            | (subst he
               exact facts 150 150 150 150 (by norm_num) (by norm_num)
                 (by norm_num) (by norm_num))
            | (subst he
               exact facts 480 480 480 480 (by norm_num) (by norm_num)
                 (by norm_num) (by norm_num))
            | (subst he
               exact facts 1024 1024 1024 1024 (by norm_num) (by norm_num)
                 (by norm_num) (by norm_num))
  · rw [variantSizes_nonspecial key image hm] at hve
    simp only [List.mem_cons, List.not_mem_nil, or_false, Prod.mk.injEq] at hve
    rcases hvs with ⟨hv, hW, hH⟩ | ⟨hv, hW, hH⟩ | ⟨hv, hW, hH⟩ <;>
      subst hv <;> subst hW <;> subst hH <;>
        rcases hve with ⟨hv2, he⟩ | ⟨hv2, he⟩ | ⟨hv2, he⟩ <;>
          first
            | exact absurd hv2 (by decide)
            | (subst he
               exact facts 150 150 150 150 (by norm_num) (by norm_num)
                 (by norm_num) (by norm_num))
            | (subst he
               exact facts 150 150 480 480 (by norm_num) (by norm_num)
                 (by norm_num) (by norm_num))
            | (subst he
               exact facts 150 150 1024 1024 (by norm_num) (by norm_num)
                 (by norm_num) (by norm_num))

/-- C2 witness: the 2000×1000 RGBA thumbnail variant is 150×75, fits its
box, and preserves the 2:1 aspect ratio exactly. -/
theorem c2_fit_and_aspect_witness :
    ((150 : Nat) ≤ 150) ∧ ((75 : Nat) ≤ 150) ∧ aspectClose 2000 1000 150 75 :=
  c2_fit_and_aspect envOk ⟨Mode.RGBA, 2000, 1000⟩ "vacation.png"
    [("thumbnail", ⟨(150, 75), "processed/thumbnail/vacation.png"⟩),
     ("mobile", ⟨(480, 240), "processed/mobile/vacation.png"⟩),
     ("web", ⟨(1024, 512), "processed/web/vacation.png"⟩)]
    (by norm_num) (by norm_num)
    (by
      have h := process_image_all_ok envOk (fun s => rfl)
        ⟨Mode.RGBA, 2000, 1000⟩ "vacation.png"
      rw [h, variantSizes_special _ _ (by decide)]
      dsimp only
      rw [thumbSize_2000_1000_150, thumbSize_2000_1000_480, thumbSize_2000_1000_1024]
      exact congrArg Except.ok (by decide))
    "thumbnail" 150 150 ⟨(150, 75), "processed/thumbnail/vacation.png"⟩
    (by decide) (by decide)

/-- C10: for a source without alpha or palette (mode not RGBA/LA/P) that
exceeds the thumbnail box, the first resize mutates the single shared image
object in place, so the mobile and web variants of the same generator call
carry the thumbnail variant's dimensions (all three equal the 150×150-box
resize of the source, which fits in 150×150) rather than dimensions
computed from the original source size. -/
theorem c10_inplace_aliasing (env : Env) (image : PILImage) (key : String)
    (results : List (String × VariantEntry))
    (hm : ¬(image.mode = Mode.RGBA ∨ image.mode = Mode.LA ∨ image.mode = Mode.P))
    (hbig : 150 < image.width ∨ 150 < image.height)
    (hok : (process_image env (.image image) key).1 = .ok results) :
    results.map (fun e => e.2.size) =
      [thumbSize image.width image.height 150 150,
       thumbSize image.width image.height 150 150,
       thumbSize image.width image.height 150 150] ∧
      (thumbSize image.width image.height 150 150).1 ≤ 150 ∧
      (thumbSize image.width image.height 150 150).2 ≤ 150 := by
  refine ⟨?_, (thumbSize_le _ _ _ _ (by norm_num) (by norm_num)).1,
    (thumbSize_le _ _ _ _ (by norm_num) (by norm_num)).2⟩
  rw [process_image_ok_results env image key results hok,
    variantSizes_nonspecial key image hm]
  simp

/-- C10 witness: the 500×500 RGB source yields 150×150 for all of
thumbnail, mobile and web. -/
theorem c10_inplace_aliasing_witness :
    ([("thumbnail", (⟨(150, 150), "processed/thumbnail/photo.png"⟩ : VariantEntry)),
      ("mobile", ⟨(150, 150), "processed/mobile/photo.png"⟩),
      ("web", ⟨(150, 150), "processed/web/photo.png"⟩)].map (fun e => e.2.size) =
      [thumbSize 500 500 150 150, thumbSize 500 500 150 150, thumbSize 500 500 150 150])
    ∧ (thumbSize 500 500 150 150).1 ≤ 150
    ∧ (thumbSize 500 500 150 150).2 ≤ 150 :=
  c10_inplace_aliasing envOk ⟨Mode.RGB, 500, 500⟩ "photo.png"
    [("thumbnail", ⟨(150, 150), "processed/thumbnail/photo.png"⟩),
     ("mobile", ⟨(150, 150), "processed/mobile/photo.png"⟩),
     ("web", ⟨(150, 150), "processed/web/photo.png"⟩)]
    (by decide) (Or.inl (by norm_num))
    (by
      have h := process_image_all_ok envOk (fun s => rfl) ⟨Mode.RGB, 500, 500⟩ "photo.png"
      rw [h, variantSizes_nonspecial _ _ (by decide)]
      dsimp only
      rw [thumbSize_500_500_150]
      exact congrArg Except.ok (by decide))

/-- C4: for one event record with bucket `uploads` and key `vacation.png`
whose source decodes to a 2000×1000 RGBA image, the generator returns
exactly three entries — thumbnail 150×75, mobile 480×240, web 1024×512 —
exactly three objects are written, under
`processed/{thumbnail,mobile,web}/vacation.png` in that order, and exactly
one notification is published; the invocation returns the 200 status. -/
theorem c4_vacation_scenario :
    (process_image envOk (.image ⟨Mode.RGBA, 2000, 1000⟩) "vacation.png").1 =
      .ok [("thumbnail", ⟨(150, 75), "processed/thumbnail/vacation.png"⟩),
           ("mobile", ⟨(480, 240), "processed/mobile/vacation.png"⟩),
           ("web", ⟨(1024, 512), "processed/web/vacation.png"⟩)]
    ∧ (lambda_handler envOk [⟨"uploads", "vacation.png"⟩]).2.puts.map PutCall.key =
        ["processed/thumbnail/vacation.png", "processed/mobile/vacation.png",
         "processed/web/vacation.png"]
    ∧ (lambda_handler envOk [⟨"uploads", "vacation.png"⟩]).2.publishes.length = 1
    ∧ (lambda_handler envOk [⟨"uploads", "vacation.png"⟩]).1 =
        .ok ⟨200, "\x22Image processing completed successfully\x22"⟩ := by
  have hres : (process_image envOk (.image ⟨Mode.RGBA, 2000, 1000⟩) "vacation.png").1 =
      .ok [("thumbnail", ⟨(150, 75), "processed/thumbnail/vacation.png"⟩),
           ("mobile", ⟨(480, 240), "processed/mobile/vacation.png"⟩),
           ("web", ⟨(1024, 512), "processed/web/vacation.png"⟩)] := by
    have h := process_image_all_ok envOk (fun s => rfl)
      ⟨Mode.RGBA, 2000, 1000⟩ "vacation.png"
    rw [h, variantSizes_special _ _ (by decide)]
    dsimp only
    rw [thumbSize_2000_1000_150, thumbSize_2000_1000_480, thumbSize_2000_1000_1024]
    exact congrArg Except.ok (by decide)
  have hpmap : (process_image envOk (.image ⟨Mode.RGBA, 2000, 1000⟩)
      "vacation.png").2.map PutCall.key =
      SIZES.map (fun nd => "processed/" ++ nd.1 ++ "/" ++ "vacation.png") :=
    processVariants_all_ok_puts envOk (fun s => rfl) _ "vacation.png" SIZES
      ⟨Mode.RGBA, 2000, 1000⟩
  rcases hpair : process_image envOk (.image ⟨Mode.RGBA, 2000, 1000⟩) "vacation.png"
    with ⟨res, puts⟩
  rw [hpair] at hres hpmap
  dsimp only at hres hpmap
  subst hres
  have hputs : puts.map PutCall.key =
      ["processed/thumbnail/vacation.png", "processed/mobile/vacation.png",
       "processed/web/vacation.png"] := by
    rw [hpmap]
    decide
  have hhead := handleRecords_ok_head envOk ⟨"uploads", "vacation.png"⟩ [] (by decide)
    (.image ⟨Mode.RGBA, 2000, 1000⟩) rfl
    [("thumbnail", ⟨(150, 75), "processed/thumbnail/vacation.png"⟩),
     ("mobile", ⟨(480, 240), "processed/mobile/vacation.png"⟩),
     ("web", ⟨(1024, 512), "processed/web/vacation.png"⟩)] puts hpair
  have hlh : lambda_handler envOk [⟨"uploads", "vacation.png"⟩] =
      (.ok ⟨200, "\x22Image processing completed successfully\x22"⟩,
       Trace.append
         ⟨[("uploads", "vacation.png")], puts,
           send_notification envOk "vacation.png"
             [("thumbnail", ⟨(150, 75), "processed/thumbnail/vacation.png"⟩),
              ("mobile", ⟨(480, 240), "processed/mobile/vacation.png"⟩),
              ("web", ⟨(1024, 512), "processed/web/vacation.png"⟩)]⟩
         Trace.empty) := by
    unfold lambda_handler
    rw [hhead]
    rfl
  refine ⟨rfl, ?_, ?_, ?_⟩
  · rw [hlh, Trace.append_empty]
    exact hputs
  · rw [hlh, Trace.append_empty]
    rfl
  · rw [hlh]

end ImagePipeline
